import Mathlib

/-!
Verification of the terrasync scan pipeline against its specification.

The development shallowly embeds the Rust sources:
  * `app/src/scan/filter.rs`  : filter expression parser and evaluator
  * `app/src/scan/scan.rs`    : scan pipeline, per-entry processing, messages
  * `app/src/consumer/db.rs`  : database sink (batching, job-id sanitizing)
  * `storage/src/lib.rs`      : NFS path parsing, storage dispatch
  * `storage/src/file.rs`     : local walker (via the walkdir crate semantics)
  * `storage/src/nfs.rs`      : NFS recursive walker

Rust strings are modelled as Lean `String` / `List Char`; byte indices used
by the sources coincide with character indices on the ASCII inputs the
theorems touch.  Machine integers are modelled as `Nat`/`Int` with explicit
bounds where overflow matters.  Code that can panic is modelled with
`Option` (`none` = panic).  Fallible parsing returns `Except`/`Option`.
-/

/-! ## Rust string primitive models -/

/-- Whitespace characters trimmed by `str::trim` (ASCII fragment). -/
def isWs (c : Char) : Bool :=
  c = ' ' || c = '\t' || c = '\n' || c = '\r'

/-- Model of `str::trim_start` on character lists. -/
def trimLeftL (l : List Char) : List Char := l.dropWhile isWs

/-- Model of `str::trim` on character lists. -/
def trimL (l : List Char) : List Char :=
  ((trimLeftL l).reverse.dropWhile isWs).reverse

/-- Model of `str::trim` for strings. -/
def rustTrim (s : String) : String := ⟨trimL s.data⟩

/-- Model of `str::trim_start` for strings. -/
def rustTrimStart (s : String) : String := ⟨trimLeftL s.data⟩

/-- Boolean list-prefix test (executable). -/
def isPre : List Char → List Char → Bool
  | [], _ => true
  | _ :: _, [] => false
  | p :: ps, c :: cs => p = c && isPre ps cs

/-- Model of `str::find(pattern)`: first index where `pat` occurs. -/
def findSubAux (pat : List Char) : List Char → Nat → Option Nat
  | [], i => if pat.isEmpty then some i else none
  | c :: cs, i => if isPre pat (c :: cs) then some i else findSubAux pat cs (i + 1)

/-- Model of `str::find` for strings (character positions). -/
def strFind (s pat : String) : Option Nat := findSubAux pat.data s.data 0

/-- Model of `str::contains` (substring containment). -/
def strContainsSub (s pat : String) : Bool := (strFind s pat).isSome

/-- Model of `str::starts_with`. -/
def strStartsWith (s pat : String) : Bool := isPre pat.data s.data

/-- Model of `str::ends_with`. -/
def strEndsWith (s pat : String) : Bool := isPre pat.data.reverse s.data.reverse

/-- Character slice `s[a..b]` (characters, matching byte slices on ASCII). -/
def strSlice (s : String) (a b : Nat) : String := ⟨(s.data.drop a).take (b - a)⟩

/-- Character slice `s[a..]`. -/
def strDropChars (s : String) (a : Nat) : String := ⟨s.data.drop a⟩

/-- Character slice `s[..b]`. -/
def strTakeChars (s : String) (b : Nat) : String := ⟨s.data.take b⟩

/-- The number of characters of a string (bytes, on ASCII input). -/
def strLen (s : String) : Nat := s.data.length

/-- Model of `str::split(char)`. -/
def splitCharAux (sep : Char) (acc : List Char) : List Char → List (List Char)
  | [] => [acc.reverse]
  | c :: cs =>
    if c = sep then acc.reverse :: splitCharAux sep [] cs
    else splitCharAux sep (c :: acc) cs

/-- Model of `str::split(char)` for strings. -/
def strSplitChar (s : String) (sep : Char) : List String :=
  (splitCharAux sep [] s.data).map (fun l => ⟨l⟩)

/-- Model of `str::split(&str)` with a non-empty pattern; the `fuel`
argument makes the recursion structural (it strictly dominates the number
of steps, so the fuel-exhaustion branch is never taken from `strSplitSub`). -/
def splitSubAux (pat : List Char) : Nat → List Char → List Char → List (List Char)
  | 0, acc, rest => [acc.reverse ++ rest]
  | _ + 1, acc, [] => [acc.reverse]
  | fuel + 1, acc, c :: cs =>
    if isPre pat (c :: cs) && !pat.isEmpty then
      acc.reverse :: splitSubAux pat fuel [] (cs.drop (pat.length - 1))
    else
      splitSubAux pat fuel (c :: acc) cs

/-- Model of `str::split(&str)` for strings. -/
def strSplitSub (s pat : String) : List String :=
  (splitSubAux pat.data (s.data.length + 1) [] s.data).map (fun l => ⟨l⟩)

/-- Model of `str::strip_prefix`. -/
def stripPrefixStr (s pat : String) : Option String :=
  if strStartsWith s pat then some (strDropChars s (strLen pat)) else none

/-- First whitespace-delimited token, `split_whitespace().next().unwrap_or("")`. -/
def firstToken (s : String) : String :=
  ⟨(trimLeftL s.data).takeWhile (fun c => !isWs c)⟩

/-! ## Rust numeric parsing models -/

/-- Value of a decimal digit character, if any. -/
def digitVal? (c : Char) : Option Nat :=
  if '0' ≤ c ∧ c ≤ '9' then some (c.toNat - 48) else none

/-- Digit value in a given radix, as accepted by `from_str_radix`
(decimal digits and lower/upper case letters). -/
def radixDigitVal? (radix : Nat) (c : Char) : Option Nat :=
  let d? : Option Nat :=
    if '0' ≤ c ∧ c ≤ '9' then some (c.toNat - 48)
    else if 'a' ≤ c ∧ c ≤ 'z' then some (c.toNat - 97 + 10)
    else if 'A' ≤ c ∧ c ≤ 'Z' then some (c.toNat - 65 + 10)
    else none
  match d? with
  | some d => if d < radix then some d else none
  | none => none

/-- Digit-accumulation loop of `from_str_radix` for an unsigned type bounded
by `bound`; each step checks overflow as the Rust `checked_mul`/`checked_add`. -/
def radixFold (radix bound : Nat) : List Char → Nat → Option Nat
  | [], acc => some acc
  | c :: cs, acc =>
    match radixDigitVal? radix c with
    | none => none
    | some d =>
      let v := acc * radix + d
      if v < bound then radixFold radix bound cs v else none

/-- Model of `uN::from_str_radix(s, radix)` for an unsigned integer type with
`bound = 2^N`.  A leading `+` is accepted; `-` is not a valid sign for
unsigned types and fails as a non-digit. -/
def fromStrRadixU (radix bound : Nat) (s : String) : Option Nat :=
  match s.data with
  | [] => none
  | c :: cs =>
    let ds := if c = '+' then cs else c :: cs
    match ds with
    | [] => none
    | _ => radixFold radix bound ds 0

/-- Model of `s.parse::<u64>()`. -/
def rustParseU64 (s : String) : Option Nat := fromStrRadixU 10 (2 ^ 64) s

/-- Model of `s.parse::<u16>()`. -/
def rustParseU16 (s : String) : Option Nat := fromStrRadixU 10 (2 ^ 16) s

/-- Numeric value of a digit list read most-significant first. -/
def digitsVal (l : List Nat) : Nat := l.foldl (fun a d => a * 10 + d) 0

/-- Map a character list to decimal digit values, failing on a non-digit. -/
def digitList? : List Char → Option (List Nat)
  | [] => some []
  | c :: cs =>
    match digitVal? c, digitList? cs with
    | some d, some ds => some (d :: ds)
    | _, _ => none

/-- Fractional value of the digits after a decimal point. -/
def fracVal (l : List Nat) : ℚ :=
  l.foldr (fun d a => ((d : ℚ) + a) / 10) 0

/-- Mantissa of a decimal float literal: digits with an optional single dot
and at least one digit overall. -/
def parseMantissa (cs : List Char) : Option ℚ :=
  let ip := cs.takeWhile fun c => (digitVal? c).isSome
  let rest := cs.dropWhile fun c => (digitVal? c).isSome
  match rest with
  | [] =>
    match digitList? ip with
    | some (d :: ds) => some ((digitsVal (d :: ds) : ℚ))
    | _ => none
  | '.' :: fp =>
    match digitList? ip, digitList? fp with
    | some ids, some fds =>
      if ids.isEmpty && fds.isEmpty then none
      else some ((digitsVal ids : ℚ) + fracVal fds)
    | _, _ => none
  | _ => none

/-- Exponent part of a float literal: optional sign then at least one digit. -/
def parseExpPart (cs : List Char) : Option Int :=
  let (neg, ds) :=
    match cs with
    | '+' :: rest => (false, rest)
    | '-' :: rest => (true, rest)
    | rest => (false, rest)
  match digitList? ds with
  | some (d :: rest) =>
    some (if neg then -(digitsVal (d :: rest) : Int) else (digitsVal (d :: rest) : Int))
  | _ => none

/-- Split a character list at the first exponent marker `e`/`E`. -/
def splitExp (cs : List Char) : List Char × Option (List Char) :=
  let m := cs.takeWhile fun c => c ≠ 'e' ∧ c ≠ 'E'
  match cs.dropWhile (fun c => c ≠ 'e' ∧ c ≠ 'E') with
  | [] => (m, none)
  | _ :: rest => (m, some rest)

/-- Model of `s.parse::<f64>()` returning the exact rational value of a finite
decimal literal.  (The special `inf`/`infinity`/`nan` spellings accepted by
Rust have no rational value and are out of scope of every theorem below;
f64 rounding is not modelled, no theorem depends on a rounded value.) -/
def rustParseF64Q (s : String) : Option ℚ :=
  match s.data with
  | [] => none
  | all =>
    let (neg, cs) :=
      match all with
      | '+' :: rest => (false, rest)
      | '-' :: rest => (true, rest)
      | rest => (false, rest)
    if cs.isEmpty then none
    else
      let (m, e?) := splitExp cs
      match parseMantissa m with
      | none => none
      | some mv =>
        match e? with
        | none => some (if neg then -mv else mv)
        | some ecs =>
          match parseExpPart ecs with
          | none => none
          | some ev =>
            let v := mv * (10 : ℚ) ^ ev
            some (if neg then -v else v)

/-! ## Filter expressions (`app/src/scan/filter.rs`) -/

/-- Individual filter condition (`FilterCondition` in filter.rs).  The Rust
`Type` variant is called `ftype` here. -/
inductive FilterCondition where
  | name (operator : String) (value : String)
  | path (operator : String) (value : String)
  | ftype (operator : String) (value : String)
  | modified (operator : String) (value : ℚ)
  | size (operator : String) (value : Nat)
  | extension (operator : String) (value : String)
deriving DecidableEq, Repr

/-- Filter expression (`FilterExpression` in filter.rs). -/
structure FilterExpression where
  expression : String
  conditions : List FilterCondition
deriving DecidableEq, Repr

/-- Model of `expr.find(c)` for a single character. -/
def strFindChar (s : String) (c : Char) : Option Nat := strFind s ⟨[c]⟩

/-- One attempt of `extract_quoted_value`'s quote loop: find an opening and a
closing occurrence of `q` and return the characters between them. -/
def extractQuote (rest : String) (q : Char) : Option String :=
  match strFindChar rest q with
  | none => none
  | some qs =>
    let after := strDropChars rest (qs + 1)
    match strFindChar after q with
    | none => none
    | some qe => some (strTakeChars after qe)

/-- Model of `extract_quoted_value(expr, "")` in filter.rs: try double then
single quotes, else the first whitespace-delimited token. -/
def extract_quoted_value (expr : String) : String :=
  let rest := rustTrimStart expr
  match extractQuote rest '"' with
  | some v => v
  | none =>
    match extractQuote rest '\'' with
    | some v => v
    | none => firstToken rest

/-- Section of `parse_single_condition` handling `" ends with "`; falls
through to `Ok(None)`. -/
def tryEndsSection (expr : String) : Except String (Option FilterCondition) :=
  match strFind expr " ends with " with
  | some pos =>
    let field := rustTrim (strTakeChars expr pos)
    let value := extract_quoted_value (strDropChars expr (pos + 10))
    match field with
    | "name" => .ok (some (.name "ends_with" value))
    | "path" => .ok (some (.path "ends_with" value))
    | _ => .ok none
  | none => .ok none

/-- Section of `parse_single_condition` handling `" starts with "`; the Rust
code slices at `pos + 12`, leaving a leading space for the value extractor. -/
def tryStartsSection (expr : String) : Except String (Option FilterCondition) :=
  match strFind expr " starts with " with
  | some pos =>
    let field := rustTrim (strTakeChars expr pos)
    let value := extract_quoted_value (strDropChars expr (pos + 12))
    match field with
    | "name" => .ok (some (.name "starts_with" value))
    | "path" => .ok (some (.path "starts_with" value))
    | _ => tryEndsSection expr
  | none => tryEndsSection expr

/-- Section of `parse_single_condition` handling `" contains "`; the Rust
code slices at `pos + 9`, leaving a leading space for the value extractor. -/
def tryContainsSection (expr : String) : Except String (Option FilterCondition) :=
  match strFind expr " contains " with
  | some pos =>
    let field := rustTrim (strTakeChars expr pos)
    let value := extract_quoted_value (strDropChars expr (pos + 9))
    match field with
    | "name" => .ok (some (.name "contains" value))
    | "path" => .ok (some (.path "contains" value))
    | "extension" => .ok (some (.extension "contains" value))
    | _ => tryStartsSection expr
  | none => tryStartsSection expr

/-- The comparison-operator loop of `parse_single_condition`: the operators
are probed in order; an occurrence with an unrecognized field falls through
to the next operator, and exhaustion falls through to the keyword sections. -/
def tryOps (expr : String) : List String → Except String (Option FilterCondition)
  | [] => tryContainsSection expr
  | op :: rest =>
    match strFind expr op with
    | none => tryOps expr rest
    | some pos =>
      let field := rustTrim (strTakeChars expr pos)
      let value := rustTrim (strDropChars expr (pos + strLen op))
      match field with
      | "name" => .ok (some (.name op (extract_quoted_value value)))
      | "path" => .ok (some (.path op (extract_quoted_value value)))
      | "type" => .ok (some (.ftype op (extract_quoted_value value)))
      | "modified" =>
        match rustParseF64Q value with
        | some v => .ok (some (.modified op v))
        | none => .error "Failed to parse modified value"
      | "size" =>
        match rustParseU64 value with
        | some v => .ok (some (.size op v))
        | none => .error "Failed to parse size value"
      | "extension" => .ok (some (.extension op (extract_quoted_value value)))
      | _ => tryOps expr rest

/-- Operator list of `parse_single_condition`, longest first. -/
def operatorList : List String := ["==", "!=", "<=", ">=", "<", ">"]

/-- Model of `parse_single_condition` in filter.rs. -/
def parse_single_condition (expr0 : String) : Except String (Option FilterCondition) :=
  let expr := rustTrim expr0
  match strFind expr " in name" with
  | some pos => .ok (some (.name "contains" (extract_quoted_value (strTakeChars expr pos))))
  | none =>
    match strFind expr " in path" with
    | some pos => .ok (some (.path "contains" (extract_quoted_value (strTakeChars expr pos))))
    | none =>
      match strFind expr " like " with
      | some pos =>
        let field := rustTrim (strTakeChars expr pos)
        let value := extract_quoted_value (strDropChars expr (pos + 6))
        match field with
        | "name" => .ok (some (.name "like" value))
        | "path" => .ok (some (.path "like" value))
        | "extension" => .ok (some (.extension "like" value))
        | _ => tryOps expr operatorList
      | none => tryOps expr operatorList

/-- Condition-collecting loop of `parse_filter_expression`: empty parts are
skipped, `Ok(None)` parts contribute nothing, errors propagate. -/
def collectConds : List String → Except String (List FilterCondition)
  | [] => .ok []
  | p :: ps =>
    if p == "" then collectConds ps
    else
      match parse_single_condition p with
      | .error e => .error e
      | .ok none => collectConds ps
      | .ok (some c) =>
        match collectConds ps with
        | .error e => .error e
        | .ok rest => .ok (c :: rest)

/-- Model of `parse_filter_expression` in filter.rs: trim, split on `"and"`,
parse each trimmed part. -/
def parse_filter_expression (expr0 : String) : Except String FilterExpression :=
  let expr := rustTrim expr0
  let parts := (strSplitSub expr "and").map rustTrim
  match collectConds parts with
  | .error e => .error e
  | .ok conds => .ok { expression := expr, conditions := conds }

/-- Boolean list-suffix test. -/
def isSuf (p l : List Char) : Bool := isPre p.reverse l.reverse

/-- Substring containment on character lists. -/
def containsSubL (l pat : List Char) : Bool := (findSubAux pat l 0).isSome

/-- Model of the `like` pattern matching block in `evaluate_filter`
(character lists).  The `%…%` branch slices `value[1..len−1]`, which panics
in Rust when the pattern is the single character `%` (`none` here). -/
def likeMatchL (subject pattern : List Char) : Option Bool :=
  if isPre ['%'] pattern && isSuf ['%'] pattern then
    if pattern.length < 2 then none
    else some (containsSubL subject ((pattern.drop 1).take (pattern.length - 2)))
  else if isPre ['%'] pattern then
    some (isSuf (pattern.drop 1) subject)
  else if isSuf ['%'] pattern then
    some (isPre (pattern.take (pattern.length - 1)) subject)
  else if pattern.contains '%' then
    match splitCharAux '%' [] pattern with
    | [p1, p2] => some (isPre p1 subject && isSuf p2 subject)
    | _ => some (subject.contains '%')
  else some (subject == pattern)

/-- Model of the `like` matching for strings. -/
def strLike (subject pattern : String) : Option Bool :=
  likeMatchL subject.data pattern.data

/-- String-operator dispatch shared by the `Name` and `Path` arms of
`evaluate_filter` (both arms have identical operator tables). -/
def evalNameOp (op : String) (subject value : String) : Option Bool :=
  match op with
  | "==" => some (subject == value)
  | "!=" => some (subject != value)
  | "contains" => some (strContainsSub subject value)
  | "in" => some (strContainsSub subject value)
  | "starts_with" => some (strStartsWith subject value)
  | "ends_with" => some (strEndsWith subject value)
  | "like" => strLike subject value
  | _ => some false

/-- Operator dispatch of the `Extension` arm of `evaluate_filter`. -/
def evalExtOp (op : String) (subject value : String) : Option Bool :=
  match op with
  | "==" => some (subject == value)
  | "!=" => some (subject != value)
  | "contains" => some (strContainsSub subject value)
  | "like" => strLike subject value
  | _ => some false

/-- Ordered comparison dispatch of the `Modified` arm. -/
def ratCmpOp (op : String) (x v : ℚ) : Bool :=
  match op with
  | "<" => decide (x < v)
  | ">" => decide (x > v)
  | "<=" => decide (x ≤ v)
  | ">=" => decide (x ≥ v)
  | _ => false

/-- Ordered comparison dispatch of the `Size` arm. -/
def natCmpOp (op : String) (x v : Nat) : Bool :=
  match op with
  | "<" => decide (x < v)
  | ">" => decide (x > v)
  | "<=" => decide (x ≤ v)
  | ">=" => decide (x ≥ v)
  | _ => false

/-- The per-entry attributes `evaluate_filter` receives as arguments. -/
structure EntryFields where
  file_name : String
  file_path : String
  file_type : String
  modified_days : ℚ
  size : Nat
  extension : String
deriving DecidableEq, Repr

/-- Evaluation of one condition against an entry. -/
def evalCondition (f : EntryFields) : FilterCondition → Option Bool
  | .name op v => evalNameOp op f.file_name v
  | .path op v => evalNameOp op f.file_path v
  | .ftype op v => some (match op with | "==" => f.file_type == v | _ => false)
  | .modified op v => some (ratCmpOp op f.modified_days v)
  | .size op v => some (natCmpOp op f.size v)
  | .extension op v => evalExtOp op f.extension v

/-- The condition loop of `evaluate_filter`: a false condition returns
early, all true yields true (`none` models a panic while evaluating). -/
def evalConditions (f : EntryFields) : List FilterCondition → Option Bool
  | [] => some true
  | c :: cs =>
    match evalCondition f c with
    | none => none
    | some false => some false
    | some true => evalConditions f cs

/-- Model of `evaluate_filter` in filter.rs. -/
def evaluate_filter (e : FilterExpression) (f : EntryFields) : Option Bool :=
  evalConditions f e.conditions

/-! ## Scan pipeline (`app/src/scan/scan.rs`) -/

/-- Inner helper of `should_skip_file`: `.any` over the expression list with
Rust's short-circuit order (`none` models a panic during evaluation). -/
def has_matching_expression (f : EntryFields) : List FilterExpression → Option Bool
  | [] => some false
  | e :: es =>
    match evaluate_filter e f with
    | none => none
    | some true => some true
    | some false => has_matching_expression f es

/-- Second check of `should_skip_file`: skip when match expressions exist
but none of them accepts the entry. -/
def skipByMatchCheck (expressions : List FilterExpression) (f : EntryFields) : Option Bool :=
  if expressions.isEmpty then some false
  else
    match has_matching_expression f expressions with
    | none => none
    | some true => some false
    | some false => some true

/-- Model of `should_skip_file` in scan.rs: exclusion first, then the match
requirement. -/
def should_skip_file (expressions exclude_expressions : List FilterExpression)
    (f : EntryFields) : Option Bool :=
  if exclude_expressions.isEmpty then skipByMatchCheck expressions f
  else
    match has_matching_expression f exclude_expressions with
    | none => none
    | some true => some true
    | some false => skipByMatchCheck expressions f

/-- One cell of `format_permissions`: the permission letter when the masked
bit is set, `-` otherwise. -/
def permBit (m : Nat) (s : String) : String := if m ≠ 0 then s else "-"

/-- Model of `format_permissions` in scan.rs: nine cells `rwxrwxrwx`. -/
def format_permissions (mode : Nat) : String :=
  permBit (mode &&& 0o400) "r" ++ permBit (mode &&& 0o200) "w" ++
  permBit (mode &&& 0o100) "x" ++ permBit (mode &&& 0o040) "r" ++
  permBit (mode &&& 0o020) "w" ++ permBit (mode &&& 0o010) "x" ++
  permBit (mode &&& 0o004) "r" ++ permBit (mode &&& 0o002) "w" ++
  permBit (mode &&& 0o001) "x"

/-- Model of `i64::checked_sub`: `none` exactly on two's-complement
overflow (a negative result is NOT overflow). -/
def i64_checked_sub (a b : Int) : Option Int :=
  if -(2 ^ 63) ≤ a - b ∧ a - b ≤ 2 ^ 63 - 1 then some (a - b) else none

/-- The `modified_days` computation of the walkdir loop in scan.rs: `now`
is the current wall clock in Unix milliseconds, `mtime` the entry's
modification time in Unix milliseconds (`None` when unavailable). -/
def modified_days_value (now : Int) (mtime : Option Int) : ℚ :=
  let diff_ms := (i64_checked_sub now (mtime.getD 0)).getD 0
  (diff_ms : ℚ) / 86400000

/-- Model of `Path::file_name` for forward-slash paths: the last non-empty,
non-`.` component; `none` for a `..` tail. -/
def rustFileName (path : String) : Option String :=
  match ((strSplitChar path '/').filter (fun c => c ≠ "" && c ≠ ".")).getLast? with
  | none => none
  | some last => if last = ".." then none else some last

/-- Model of `Path::extension`: the part of the file name after its last
dot, `none` when there is no dot or only a leading one. -/
def rustExtension (path : String) : Option String :=
  match rustFileName path with
  | none => none
  | some f =>
    match findSubAux ['.'] f.data.reverse 0 with
    | none => none
    | some k =>
      let dotPos := f.data.length - 1 - k
      if dotPos = 0 then none else some ⟨f.data.drop (dotPos + 1)⟩

/-- ASCII lowercasing, `str::to_lowercase` on the inputs considered here. -/
def toLowerStr (s : String) : String := ⟨s.data.map Char.toLower⟩

/-- The extension string computed per entry by the walkdir loop:
`extension().and_then(to_str).unwrap_or("").to_lowercase()`. -/
def entryExtensionLower (path : String) : String :=
  toLowerStr ((rustExtension path).getD "")

/-- Scan type (`ScanType` in scan.rs). -/
inductive ScanType where
  | full
  | incremental
deriving DecidableEq, Repr

/-- Scan parameters from the CLI (`ScanParams` in scan.rs). -/
structure ScanParams where
  id : Option String
  depth : Nat
  path : String
  match_expressions : List String
  exclude_expressions : List String
  scan_type : ScanType
deriving DecidableEq, Repr

/-- Internal scan configuration (`ScanConfig` in scan.rs). -/
structure ScanConfig where
  params : ScanParams
  expressions : List FilterExpression
  exclude_expressions : List FilterExpression
deriving DecidableEq, Repr

/-- Consumer configuration (`ConsumerConfig` in scan.rs); of the embedded
`AppConfig` only the database batch size is relevant to the claims. -/
structure ConsumerConfig where
  scan_config : ScanConfig
  job_id : String
  db_batch_size : Nat
deriving DecidableEq, Repr

/-- The `StorageEntry` record as consumed by the walkdir loop in scan.rs
(times are Unix milliseconds, `Option Int`). -/
structure StorageEntryPipe where
  name : String
  path : String
  relative_path : String
  is_dir : Bool
  is_symlink : Option Bool
  size : Nat
  accessed : Option Int
  created : Option Int
  modified : Option Int
  mode : Option Nat
  hard_links : Option Nat
deriving DecidableEq, Repr

/-- Scan result record (`StorageEntity` in scan.rs). -/
structure StorageEntity where
  file_name : String
  file_path : String
  relative_path : String
  extension : Option String
  is_dir : Bool
  is_symlink : Bool
  size : Nat
  atime : Option Int
  ctime : Option Int
  mtime : Option Int
  mode : Option Nat
  permissions : Option String
  hard_links : Option Nat
deriving DecidableEq, Repr

/-- Queue message (`ScanMessage` in scan.rs). -/
inductive ScanMessage where
  | result (e : StorageEntity)
  | complete
  | config (c : ConsumerConfig)
deriving DecidableEq, Repr

/-- The filter-relevant attributes derived per entry by the walkdir loop. -/
def entryFields (now : Int) (e : StorageEntryPipe) : EntryFields :=
  { file_name := e.name
    file_path := e.path
    file_type := if e.is_dir then "dir" else "file"
    modified_days := modified_days_value now e.modified
    size := e.size
    extension := entryExtensionLower e.path }

/-- The `StorageEntity` built by the walkdir loop for a surviving entry. -/
def scanResultOf (e : StorageEntryPipe) : StorageEntity :=
  let ext := entryExtensionLower e.path
  { file_name := e.name
    file_path := e.path
    relative_path := e.relative_path
    extension := if ext = "" then none else some ext
    is_dir := e.is_dir
    is_symlink := e.is_symlink.getD false
    size := e.size
    atime := e.accessed
    ctime := e.created
    mtime := e.modified
    mode := e.mode
    permissions := e.mode.map format_permissions
    hard_links := e.hard_links }

/-- The sequence of messages `walkdir` sends on its channel for a given
stream of storage entries: a `result` per kept entry, then `complete`.
A panic while filtering (`none`) kills the task: nothing further is sent
and `complete` is never emitted. -/
def walkdirSent (cfg : ScanConfig) (now : Int) : List StorageEntryPipe → List ScanMessage
  | [] => [ScanMessage.complete]
  | e :: rest =>
    match should_skip_file cfg.expressions cfg.exclude_expressions (entryFields now e) with
    | none => []
    | some true => walkdirSent cfg now rest
    | some false => ScanMessage.result (scanResultOf e) :: walkdirSent cfg now rest

/-- The forwarding loop of `scan`: results are re-broadcast in order;
`complete` is re-broadcast and the loop breaks; a closed channel (the list
ends without `complete`) also broadcasts `complete`; stray `config`
messages are ignored. -/
def scanForward : List ScanMessage → List ScanMessage
  | [] => [ScanMessage.complete]
  | ScanMessage.result r :: rest => ScanMessage.result r :: scanForward rest
  | ScanMessage.complete :: _ => [ScanMessage.complete]
  | ScanMessage.config _ :: rest => scanForward rest

/-- The full broadcast trace a sink receives from one run of `scan`:
`config` once up front, then the forwarded walker messages. -/
def scanBroadcast (cc : ConsumerConfig) (now : Int)
    (entries : List StorageEntryPipe) : List ScanMessage :=
  ScanMessage.config cc :: scanForward (walkdirSent cc.scan_config now entries)

/-! ## Database sink (`app/src/consumer/db.rs`) -/

/-- Single-character replacement, the effect of Rust `str::replace(char, "_")`. -/
def charReplace (pat rep : Char) (s : String) : String :=
  ⟨s.data.map (fun c => if c = pat then rep else c)⟩

/-- Model of `sanitize_job_id` in db.rs: the five successive `replace`
calls, applied in source order. -/
def sanitize_job_id (s : String) : String :=
  charReplace '\\' '_' (charReplace '/' '_' (charReplace ' ' '_'
    (charReplace '.' '_' (charReplace '-' '_' s))))

/-- Conversion of an optional Unix-millisecond instant to Unix seconds as
the sink stores it: `duration_since(UNIX_EPOCH)` fails before the epoch and
`unwrap_or(0)` also maps an unavailable time to `0`. -/
def toUnixSecs (t : Option Int) : Nat :=
  match t with
  | none => 0
  | some ms => if ms < 0 then 0 else (ms / 1000).toNat

/-- The `perm` conversion in the sink: parse the nine-character permission
string as base-8 via `u32::from_str_radix`, defaulting to `0`. -/
def permOfPermissions (p : Option String) : Nat :=
  ((p.bind (fun s => fromStrRadixU 8 (2 ^ 32) s)).getD 0)

/-- Flattened sink record (`FileScanRecord` in db/traits). -/
structure FileScanRecord where
  path : String
  size : Nat
  ext : Option String
  ctime : Nat
  mtime : Nat
  atime : Nat
  perm : Nat
  is_symlink : Bool
  is_dir : Bool
  is_regular_file : Bool
  file_handle : Option String
  current_state : Nat
deriving DecidableEq, Repr

/-- The record the database consumer builds from a broadcast entity. -/
def recordOfEntity (e : StorageEntity) : FileScanRecord :=
  { path := e.file_path
    size := e.size
    ext := e.extension
    ctime := toUnixSecs e.ctime
    mtime := toUnixSecs e.mtime
    atime := toUnixSecs e.atime
    perm := permOfPermissions e.permissions
    is_symlink := e.is_symlink
    is_dir := e.is_dir
    is_regular_file := !e.is_dir
    file_handle := none
    current_state := 0 }

/-- State of the database consumer loop: whether a database instance was
initialized, the configured batch size, the in-memory buffer and the sizes
of the batch inserts performed so far. -/
structure DbConsState where
  hasDb : Bool
  batch_size : Option Nat
  buffer : List FileScanRecord
  inserts : List Nat
deriving DecidableEq, Repr

/-- Initial consumer state: no database, no batch size, empty buffer. -/
def dbInit : DbConsState := ⟨false, none, [], []⟩

/-- The receive loop of `DatabaseConsumer::start`: results are buffered and
flushed at capacity, `config` initializes the database and batch size,
`complete` flushes a non-empty residual buffer and breaks. -/
def dbRun : DbConsState → List ScanMessage → DbConsState
  | st, [] => st
  | st, ScanMessage.result e :: rest =>
    if st.hasDb then
      let buf := st.buffer ++ [recordOfEntity e]
      if buf.length ≥ st.batch_size.getD 200000 then
        dbRun { st with buffer := [], inserts := st.inserts ++ [buf.length] } rest
      else
        dbRun { st with buffer := buf } rest
    else
      dbRun st rest
  | st, ScanMessage.complete :: _ =>
    if st.hasDb ∧ st.buffer ≠ [] then
      { st with buffer := [], inserts := st.inserts ++ [st.buffer.length] }
    else st
  | st, ScanMessage.config c :: rest =>
    dbRun { st with hasDb := true, batch_size := some c.db_batch_size } rest

/-! ## Storage walkers (`storage/src/file.rs`, `storage/src/nfs.rs`) -/

/-- Abstract file-system tree over which the walkers are interpreted. -/
inductive FsNode where
  | mk (name : String) (isDir : Bool) (children : List FsNode)

/-- Name of a tree node. -/
def FsNode.nameOf : FsNode → String
  | .mk n _ _ => n

/-- Directory flag of a tree node. -/
def FsNode.isDirOf : FsNode → Bool
  | .mk _ d _ => d

/-- Children of a tree node. -/
def FsNode.childrenOf : FsNode → List FsNode
  | .mk _ _ cs => cs

mutual
/-- Semantics of the `walkdir` crate iteration used by
`LocalStorage::walkdir`: depth-first preorder, the root is yielded at
depth 0, and `max_depth(d)` (when given) stops descending once a node's
depth reaches `d`.  Each emitted entry is paired with its depth below the
scan root. -/
def localWalkNode : FsNode → Option Nat → Nat → List (String × Nat)
  | .mk n d cs, maxD, k =>
    (n, k) ::
      (if d && (match maxD with | none => true | some m => k < m) then
        localWalkList cs maxD (k + 1)
      else [])

/-- Walk of a sibling list for `localWalkNode`. -/
def localWalkList : List FsNode → Option Nat → Nat → List (String × Nat)
  | [], _, _ => []
  | t :: ts, maxD, k => localWalkNode t maxD k ++ localWalkList ts maxD k
end

/-- `LocalStorage::walkdir` over a tree: `WalkDir::new(root)` with
`max_depth` applied only when a depth was supplied. -/
def local_walkdir (root : FsNode) (depth : Option Nat) : List (String × Nat) :=
  localWalkNode root depth 0

/-- Semantics of `NFSStorage::list_dir_recursive_internal` over the children
of a directory at recursion depth `k` (entries of the directory sit `k + 1`
levels below the mounted root): each entry is emitted, and a directory
entry is recursed into only when `max_depth == 0 || current_depth <
max_depth - 1`. -/
def nfsWalkList (maxDepth : Nat) : List FsNode → Nat → List (String × Nat)
  | [], _ => []
  | .mk n d cs :: rest, k =>
    (n, k + 1) ::
      ((if d && (maxDepth == 0 || k < maxDepth - 1) then
          nfsWalkList maxDepth cs (k + 1)
        else []) ++ nfsWalkList maxDepth rest k)

/-- `NFSStorage::walkdir` over a tree: the recursion starts at the mounted
root's entries with `current_depth = 0`; the root itself is never listed by
`READDIRPLUS` (and `.`/`..` entries are absent from the tree model). -/
def nfs_walkdir (root : FsNode) (maxDepth : Nat) : List (String × Nat) :=
  nfsWalkList maxDepth root.childrenOf 0

/-- Depth conversion in `scan::walkdir`: a CLI depth of 0 means unbounded
(`None`), any positive depth is passed through. -/
def scanDepthOpt (d : Nat) : Option Nat :=
  if d > 0 then some d else none

/-! ## NFS path parsing (`storage/src/lib.rs`) -/

/-- The portmapper well-known port, `PMAP_PORT` from the nfs3 crate (111). -/
def PMAP_PORT : Nat := 111

/-- Model of `parse_server_and_port`: `none` models the Rust panics. -/
def parse_server_and_port (sp0 : String) : Option (String × Nat) :=
  let sp := rustTrim sp0
  if sp = "" then none
  else
    match strFindChar sp ':' with
    | some cp =>
      let server := rustTrim (strTakeChars sp cp)
      let port_str := rustTrim (strDropChars sp (cp + 1))
      if server = "" then none
      else if port_str = "" then none
      else
        match rustParseU16 port_str with
        | none => none
        | some port => some (server, port)
    | none => some (sp, PMAP_PORT)

/-- Model of `parse_nfs_url_format` for `nfs://` paths. -/
def parse_nfs_url_format (p : String) : Option (String × Nat × String) :=
  match strFindChar p '/' with
  | none => none
  | some slash =>
    let server_part := strTakeChars p slash
    let path_part := strDropChars p slash
    if !strStartsWith path_part "/" then none
    else
      match parse_server_and_port server_part with
      | none => none
      | some (server, port) => some (server, port, path_part)

/-- Model of `parse_nfs_traditional_format` (`server`, `server:path`,
`server:port:path`). -/
def parse_nfs_traditional_format (s : String) : Option (String × Nat × String) :=
  match strSplitChar s ':' with
  | [] => none
  | [server0] =>
    let server := rustTrim server0
    if server = "" then none else some (server, PMAP_PORT, "/")
  | [server0, path0] =>
    let server := rustTrim server0
    let path := rustTrim path0
    if server = "" then none
    else if path = "" then none
    else
      let normalized := if strStartsWith path "/" then path else "/" ++ path
      some (server, PMAP_PORT, normalized)
  | server0 :: port0 :: p2 :: ps =>
    let server := rustTrim server0
    let port_str := rustTrim port0
    let path := rustTrim (String.intercalate ":" (p2 :: ps))
    if server = "" then none
    else if port_str = "" then none
    else if path = "" then none
    else
      match rustParseU16 port_str with
      | none => none
      | some port =>
        let normalized := if strStartsWith path "/" then path else "/" ++ path
        some (server, port, normalized)

/-- Model of `parse_nfs_path` in storage/src/lib.rs; `none` models the Rust
panics on invalid paths. -/
def parse_nfs_path (nfs_path : String) : Option (String × Nat × String) :=
  let s := rustTrim nfs_path
  if s = "" then none
  else
    match stripPrefixStr s "nfs://" with
    | some stripped => parse_nfs_url_format stripped
    | none => parse_nfs_traditional_format s

/-! ## Auxiliary predicates used by the theorems -/

/-- Pointwise effect of `sanitize_job_id`: the five replaced characters map
to `_`, everything else is unchanged. -/
def sanitizeChar (c : Char) : Char :=
  if c = '-' ∨ c = '.' ∨ c = ' ' ∨ c = '/' ∨ c = '\\' then '_' else c

/-- Characters of the class `[A-Za-z0-9_]`. -/
def isWordCharB (c : Char) : Bool := c.isAlphanum || c = '_'

/-- The five characters `sanitize_job_id` replaces. -/
def isSpecialCharB (c : Char) : Bool :=
  c = '-' || c = '.' || c = ' ' || c = '/' || c = '\\'

/-- Printable ASCII characters. -/
def isPrintableB (c : Char) : Bool := 32 ≤ c.toNat && c.toNat ≤ 126

/-- Recognizer for `config` messages. -/
def isConfigMsg : ScanMessage → Bool
  | .config _ => true
  | _ => false

/-- Recognizer for `complete` messages. -/
def isCompleteMsg : ScanMessage → Bool
  | .complete => true
  | _ => false

/-- Recognizer for `result` messages. -/
def isResultMsg : ScanMessage → Bool
  | .result _ => true
  | _ => false

/-- No conjunct shape of the grammar occurs in the (trimmed) condition:
none of the operator substrings or keywords probed by
`parse_single_condition` is present. -/
def noConditionShape (s : String) : Bool :=
  [" in name", " in path", " like ", "==", "!=", "<=", ">=", "<", ">",
    " contains ", " starts with ", " ends with "].all
    (fun pat => !(strContainsSub (rustTrim s) pat))

/-- Decidable equality of `Except` results, for evaluating parser outputs. -/
instance {e a : Type} [DecidableEq e] [DecidableEq a] : DecidableEq (Except e a) := fun x y =>
  match x, y with
  | .ok u, .ok v =>
    if h : u = v then isTrue (by rw [h]) else isFalse (by intro hc; cases hc; exact h rfl)
  | .error u, .error v =>
    if h : u = v then isTrue (by rw [h]) else isFalse (by intro hc; cases hc; exact h rfl)
  | .ok _, .error _ => isFalse (by intro hc; cases hc)
  | .error _, .ok _ => isFalse (by intro hc; cases hc)

/-! ## Shared lemmas -/

theorem strData_append (a b : String) : (a ++ b).data = a.data ++ b.data := rfl

theorem strLen_append (a b : String) : strLen (a ++ b) = strLen a + strLen b := by
  simp [strLen, strData_append]

/-! ## C6: NFS path parsing -/

/-- C6: `parse_nfs_path "nfs://host:2049/exp/x"` yields
`("host", 2049, "/exp/x")`; `parse_nfs_path "host:path"` yields the host,
the default portmapper port (111) and the path normalized to start with a
slash; `parse_nfs_path ""` fails (a fatal panic, modelled as `none`). -/
theorem parse_nfs_path_examples :
    parse_nfs_path "nfs://host:2049/exp/x" = some ("host", 2049, "/exp/x") ∧
    parse_nfs_path "host:path" = some ("host", PMAP_PORT, "/path") ∧
    PMAP_PORT = 111 ∧
    parse_nfs_path "" = none := by
  refine ⟨by decide, by decide, rfl, by decide⟩

/-! ## C3: depth-1 walker semantics -/

theorem nfsWalkList_depth_one (cs : List FsNode) :
    nfsWalkList 1 cs 0 = cs.map (fun c => (c.nameOf, 1)) := by
  induction cs with
  | nil => simp [nfsWalkList]
  | cons t ts ih =>
    cases t with
    | mk n d cs' =>
      simp [nfsWalkList, ih, FsNode.nameOf]

theorem localWalkList_depth_one (cs : List FsNode) :
    localWalkList cs (some 1) 1 = cs.map (fun c => (c.nameOf, 1)) := by
  induction cs with
  | nil => simp [localWalkList]
  | cons t ts ih =>
    cases t with
    | mk n d cs' =>
      simp [localWalkList, localWalkNode, ih, FsNode.nameOf]

/-- C3 (counterexample): at depth parameter 1 the local walker does emit
the scan root itself (at level 0), contrary to the claim that the root
entry is not emitted by either walker.  Concrete run: a root directory with
one file child. -/
theorem local_walkdir_depth_one_emits_root :
    local_walkdir (FsNode.mk "root" true [FsNode.mk "a" false []]) (scanDepthOpt 1)
      = [("root", 0), ("a", 1)] ∧
    ("root", 0) ∈
      local_walkdir (FsNode.mk "root" true [FsNode.mk "a" false []]) (scanDepthOpt 1) := by
  refine ⟨by decide, by decide⟩

/-- C3 (amended): for a scan with depth parameter 1 over a directory root,
the NFS walker emits exactly the immediate children of the root (the root
itself is not emitted); the local walker emits the root entry at level 0
followed by exactly the immediate children; neither walker emits an entry
more than one level below the root. -/
theorem walkers_depth_one (n : String) (cs : List FsNode) :
    nfs_walkdir (FsNode.mk n true cs) 1 = cs.map (fun c => (c.nameOf, 1)) ∧
    local_walkdir (FsNode.mk n true cs) (scanDepthOpt 1)
      = (n, 0) :: cs.map (fun c => (c.nameOf, 1)) ∧
    (∀ e ∈ nfs_walkdir (FsNode.mk n true cs) 1, e.2 = 1) ∧
    (∀ e ∈ local_walkdir (FsNode.mk n true cs) (scanDepthOpt 1), e.2 ≤ 1) := by
  have h1 : nfs_walkdir (FsNode.mk n true cs) 1 = cs.map (fun c => (c.nameOf, 1)) := by
    simpa [nfs_walkdir, FsNode.childrenOf] using nfsWalkList_depth_one cs
  have h2 : local_walkdir (FsNode.mk n true cs) (scanDepthOpt 1)
      = (n, 0) :: cs.map (fun c => (c.nameOf, 1)) := by
    simp [local_walkdir, scanDepthOpt, localWalkNode, localWalkList_depth_one]
  refine ⟨h1, h2, ?_, ?_⟩
  · intro e he
    rw [h1] at he
    rcases List.mem_map.mp he with ⟨c, _, rfl⟩
    rfl
  · intro e he
    rw [h2] at he
    rcases List.mem_cons.mp he with h | h
    · simp [h]
    · rcases List.mem_map.mp h with ⟨c, _, rfl⟩
      simp

/-- C3 (amended, witness): the depth-1 shape at a concrete two-child tree. -/
theorem walkers_depth_one_witness :
    nfs_walkdir (FsNode.mk "r" true [FsNode.mk "a" false [], FsNode.mk "d" true [FsNode.mk "c" false []]]) 1
      = [("a", 1), ("d", 1)] ∧
    local_walkdir (FsNode.mk "r" true [FsNode.mk "a" false [], FsNode.mk "d" true [FsNode.mk "c" false []]]) (scanDepthOpt 1)
      = [("r", 0), ("a", 1), ("d", 1)] ∧
    (("a", 1) : String × Nat).2 = 1 ∧
    (("r", 0) : String × Nat).2 ≤ 1 := by
  have h := walkers_depth_one "r" [FsNode.mk "a" false [], FsNode.mk "d" true [FsNode.mk "c" false []]]
  refine ⟨by rw [h.1]; rfl, by rw [h.2.1]; rfl, ?_, ?_⟩
  · exact h.2.2.1 ("a", 1) (by rw [h.1]; decide)
  · exact h.2.2.2 ("r", 0) (by rw [h.2.1]; decide)

/-! ## C4: modified_days derivation -/

/-- C4 (counterexample): the claim says `modified_days = 0` whenever the
mtime is in the future or unavailable.  At `now = 86400000` ms with
`mtime = 86400001` ms (one millisecond in the future) the value is the
negative `-1/86400000`, and with an unavailable mtime the value is
`now / 86400000` (days since the epoch), not 0.  `i64::checked_sub` only
guards two's-complement overflow, not negative results. -/
theorem modified_days_not_clamped :
    (86400000 : Int) < 86400001 ∧
    modified_days_value 86400000 (some 86400001) ≠ 0 ∧
    modified_days_value 86400000 none ≠ 0 := by
  refine ⟨by norm_num, ?_, ?_⟩ <;>
    · unfold modified_days_value i64_checked_sub
      norm_num

/-- C4 (amended): whenever the millisecond difference `now − mtime` fits in
`i64` (always, for wall-clock values), `modified_days` equals exactly
`(now − mtime) / 86 400 000` — the difference divided by the number of
milliseconds per day.  A future mtime therefore yields a negative value
(not 0), and an unavailable mtime is substituted by the epoch, yielding
`now / 86 400 000` (not 0). -/
theorem modified_days_exact (now m : Int)
    (hlo : -(2 ^ 63) ≤ now - m) (hhi : now - m ≤ 2 ^ 63 - 1) :
    modified_days_value now (some m) = ((now : ℚ) - (m : ℚ)) / 86400000 ∧
    (now < m → modified_days_value now (some m) < 0) ∧
    (-(2 ^ 63) ≤ now → now ≤ 2 ^ 63 - 1 →
      modified_days_value now none = (now : ℚ) / 86400000) := by
  have heq : modified_days_value now (some m) = ((now : ℚ) - (m : ℚ)) / 86400000 := by
    unfold modified_days_value i64_checked_sub
    simp only [Option.getD_some]
    rw [if_pos ⟨hlo, hhi⟩]
    simp only [Option.getD_some]
    push_cast
    ring
  refine ⟨heq, ?_, ?_⟩
  · intro hfut
    rw [heq]
    apply div_neg_of_neg_of_pos
    · have : (now : ℚ) < (m : ℚ) := by exact_mod_cast hfut
      linarith
    · norm_num
  · intro h1 h2
    unfold modified_days_value i64_checked_sub
    simp only [Option.getD_none, Int.sub_zero]
    rw [if_pos ⟨h1, h2⟩]
    simp only [Option.getD_some]

/-- C4 (amended, witness): concrete instantiation one day apart. -/
theorem modified_days_exact_witness :
    modified_days_value 172800000 (some 86400000) = (1 : ℚ) ∧
    modified_days_value 86400000 (some 86400001) < 0 ∧
    modified_days_value 86400000 none = (1 : ℚ) := by
  have h1 := modified_days_exact 172800000 86400000 (by norm_num) (by norm_num)
  have h2 := modified_days_exact 86400000 86400001 (by norm_num) (by norm_num)
  refine ⟨?_, h2.2.1 (by norm_num), ?_⟩
  · rw [h1.1]; norm_num
  · rw [h2.2.2 (by norm_num) (by norm_num)]; norm_num

/-! ## C10: permission strings never parse as octal -/

theorem permBit_cases (m : Nat) (s : String) : permBit m s = s ∨ permBit m s = "-" := by
  unfold permBit
  split
  · exact Or.inl rfl
  · exact Or.inr rfl

theorem permBit_chars (m : Nat) (s : String)
    (hs : ∀ c ∈ s.data, c = 'r' ∨ c = 'w' ∨ c = 'x' ∨ c = '-') :
    ∀ c ∈ (permBit m s).data, c = 'r' ∨ c = 'w' ∨ c = 'x' ∨ c = '-' := by
  rcases permBit_cases m s with h | h <;> rw [h]
  · exact hs
  · intro c hc
    right; right; right
    simpa using hc

theorem permBit_len (m : Nat) (s : String) (hs : strLen s = 1) :
    strLen (permBit m s) = 1 := by
  rcases permBit_cases m s with h | h <;> rw [h]
  · exact hs
  · rfl

theorem format_permissions_chars (mode : Nat) :
    ∀ c ∈ (format_permissions mode).data, c = 'r' ∨ c = 'w' ∨ c = 'x' ∨ c = '-' := by
  intro c hc
  unfold format_permissions at hc
  simp only [strData_append, List.mem_append] at hc
  rcases hc with ((((((((h | h) | h) | h) | h) | h) | h) | h) | h) <;>
    exact permBit_chars _ _ (by decide) c h

theorem format_permissions_len (mode : Nat) : strLen (format_permissions mode) = 9 := by
  unfold format_permissions
  rw [strLen_append, strLen_append, strLen_append, strLen_append, strLen_append,
    strLen_append, strLen_append, strLen_append]
  rw [permBit_len (mode &&& 0o400) "r" (by decide), permBit_len (mode &&& 0o200) "w" (by decide),
    permBit_len (mode &&& 0o100) "x" (by decide), permBit_len (mode &&& 0o040) "r" (by decide),
    permBit_len (mode &&& 0o020) "w" (by decide), permBit_len (mode &&& 0o010) "x" (by decide),
    permBit_len (mode &&& 0o004) "r" (by decide), permBit_len (mode &&& 0o002) "w" (by decide),
    permBit_len (mode &&& 0o001) "x" (by decide)]

theorem fromStrRadixU8_rwx_none (s : String) (hne : s.data ≠ [])
    (hall : ∀ c ∈ s.data, c = 'r' ∨ c = 'w' ∨ c = 'x' ∨ c = '-') :
    fromStrRadixU 8 (2 ^ 32) s = none := by
  unfold fromStrRadixU
  cases hd : s.data with
  | nil => exact absurd hd hne
  | cons c cs =>
    have hc := hall c (hd ▸ List.mem_cons_self c cs)
    have hplus : ¬ c = '+' := by rcases hc with h | h | h | h <;> subst h <;> decide
    simp only [hplus, if_false]
    have hdig : radixDigitVal? 8 c = none := by
      rcases hc with h | h | h | h <;> subst h <;> rfl
    simp [radixFold, hdig]

/-- C10: every permissions string the pipeline produces is a nine-character
string over `r`, `w`, `x`, `-`; `u32::from_str_radix(_, 8)` always fails on
such a string, so the database consumer's `perm` field, which falls back to
0 on a failed parse, is 0 for every record built from a pipeline entity
whose mode was present. -/
theorem perm_always_zero (mode : Nat) :
    strLen (format_permissions mode) = 9 ∧
    ((format_permissions mode).data.all
      (fun c => c = 'r' || c = 'w' || c = 'x' || c = '-')) = true ∧
    fromStrRadixU 8 (2 ^ 32) (format_permissions mode) = none ∧
    permOfPermissions (some (format_permissions mode)) = 0 ∧
    (∀ e : StorageEntity, e.permissions = some (format_permissions mode) →
      (recordOfEntity e).perm = 0) := by
  have hlen := format_permissions_len mode
  have hchars := format_permissions_chars mode
  have hne : (format_permissions mode).data ≠ [] := by
    intro h
    rw [strLen, h] at hlen
    exact absurd hlen (by decide)
  have hnone := fromStrRadixU8_rwx_none _ hne hchars
  have hperm : permOfPermissions (some (format_permissions mode)) = 0 := by
    show (fromStrRadixU 8 (2 ^ 32) (format_permissions mode)).getD 0 = 0
    rw [hnone]
    rfl
  refine ⟨hlen, ?_, hnone, hperm, ?_⟩
  · rw [List.all_eq_true]
    intro c hc
    rcases hchars c hc with h | h | h | h <;> subst h <;> rfl
  · intro e he
    simp [recordOfEntity, he, hperm]

/-- C10 (witness): the mode `0o644` yields `rw-r--r--`, which parses to no
octal value, and a record carrying it stores `perm = 0`. -/
theorem perm_always_zero_witness :
    strLen (format_permissions 420) = 9 ∧
    fromStrRadixU 8 (2 ^ 32) (format_permissions 420) = none ∧
    (recordOfEntity
      { file_name := "a", file_path := "/a", relative_path := "a",
        extension := none, is_dir := false, is_symlink := false, size := 0,
        atime := none, ctime := none, mtime := none, mode := some 420,
        permissions := some (format_permissions 420), hard_links := none }).perm = 0 := by
  have h := perm_always_zero 420
  exact ⟨h.1, h.2.2.1, h.2.2.2.2 _ rfl⟩

/-! ## C8: job-id sanitization -/

theorem sanitize_data (s : String) :
    (sanitize_job_id s).data = s.data.map sanitizeChar := by
  show (s.data.map (fun c => if c = '-' then '_' else c)
          |>.map (fun c => if c = '.' then '_' else c)
          |>.map (fun c => if c = ' ' then '_' else c)
          |>.map (fun c => if c = '/' then '_' else c)
          |>.map (fun c => if c = '\\' then '_' else c))
        = s.data.map sanitizeChar
  simp only [List.map_map]
  apply List.map_congr_left
  intro c _
  simp only [Function.comp]
  by_cases h1 : c = '-'
  · subst h1; rfl
  · by_cases h2 : c = '.'
    · subst h2; rfl
    · by_cases h3 : c = ' '
      · subst h3; rfl
      · by_cases h4 : c = '/'
        · subst h4; rfl
        · by_cases h5 : c = '\\'
          · subst h5; rfl
          · simp [h1, h2, h3, h4, h5, sanitizeChar]

theorem sanitizeChar_idem (c : Char) : sanitizeChar (sanitizeChar c) = sanitizeChar c := by
  by_cases h : c = '-' ∨ c = '.' ∨ c = ' ' ∨ c = '/' ∨ c = '\\'
  · unfold sanitizeChar
    rw [if_pos h]
    rfl
  · unfold sanitizeChar
    rw [if_neg h, if_neg h]

theorem sanitizeChar_not_special (c : Char) : isSpecialCharB (sanitizeChar c) = false := by
  by_cases h : c = '-' ∨ c = '.' ∨ c = ' ' ∨ c = '/' ∨ c = '\\'
  · unfold sanitizeChar
    rw [if_pos h]
    rfl
  · unfold sanitizeChar
    rw [if_neg h]
    push_neg at h
    simp [isSpecialCharB, h.1, h.2.1, h.2.2.1, h.2.2.2.1, h.2.2.2.2]

/-- C8 (counterexample): the claim says the output of `sanitize_job_id`
contains only `[A-Za-z0-9_]` for any printable input; the printable input
`"!"` is returned unchanged, and `!` is outside that class — only the five
characters `- . space / \` are replaced. -/
theorem sanitize_not_word_closed :
    ¬ (∀ s : String, (∀ c ∈ s.data, isPrintableB c = true) →
        ∀ c ∈ (sanitize_job_id s).data, isWordCharB c = true) := by
  intro h
  have hbang : '!' ∈ (sanitize_job_id "!").data := by decide
  have := h "!" (by decide) '!' hbang
  exact absurd this (by decide)

/-- C8 (amended): `sanitize_job_id` is idempotent on every input; it acts
pointwise, replacing each occurrence of `- . space / \` with `_` and
leaving every other character unchanged; consequently its output never
contains one of the five replaced characters, and it consists only of
`[A-Za-z0-9_]` exactly when the input draws on `[A-Za-z0-9_]` plus the five
replaced characters (other printable characters such as `!` pass through). -/
theorem sanitize_job_id_spec :
    (∀ s : String, sanitize_job_id (sanitize_job_id s) = sanitize_job_id s) ∧
    (∀ s : String, (sanitize_job_id s).data = s.data.map sanitizeChar) ∧
    (∀ s : String, (sanitize_job_id s).data.all (fun c => !isSpecialCharB c) = true) ∧
    (∀ s : String, s.data.all (fun c => isWordCharB c || isSpecialCharB c) = true →
      (sanitize_job_id s).data.all isWordCharB = true) := by
  refine ⟨?_, sanitize_data, ?_, ?_⟩
  · intro s
    apply String.ext
    rw [sanitize_data, sanitize_data, List.map_map]
    apply List.map_congr_left
    intro c _
    exact sanitizeChar_idem c
  · intro s
    rw [sanitize_data, List.all_eq_true]
    intro c hc
    rcases List.mem_map.mp hc with ⟨a, _, rfl⟩
    simp [sanitizeChar_not_special]
  · intro s hall
    rw [sanitize_data, List.all_eq_true]
    intro c hc
    rcases List.mem_map.mp hc with ⟨a, ha, rfl⟩
    have := (List.all_eq_true.mp hall) a ha
    rcases Bool.or_eq_true_iff.mp this with hw | hsp
    · unfold sanitizeChar
      split
      · rfl
      · exact hw
    · unfold sanitizeChar
      rw [if_pos ?_]
      · rfl
      · simp only [isSpecialCharB, Bool.or_eq_true_iff, decide_eq_true_eq] at hsp
        tauto

/-- C8 (amended, witness): concrete instantiation on `"a-b.c d/e"`. -/
theorem sanitize_job_id_spec_witness :
    sanitize_job_id (sanitize_job_id "a-b.c d/e") = sanitize_job_id "a-b.c d/e" ∧
    (sanitize_job_id "a-b.c d/e").data.all isWordCharB = true := by
  exact ⟨sanitize_job_id_spec.1 "a-b.c d/e",
    sanitize_job_id_spec.2.2.2 "a-b.c d/e" (by decide)⟩

/-! ## C5: parse failure modes -/

theorem parse_single_condition_unrecognized (s : String)
    (h : noConditionShape s = true) :
    parse_single_condition s = .ok none := by
  simp only [noConditionShape, List.all_cons, List.all_nil, Bool.and_eq_true,
    Bool.not_eq_true'] at h
  obtain ⟨h1, h2, h3, h4, h5, h6, h7, h8, h9, h10, h11, h12, -⟩ := h
  have key : ∀ p, strContainsSub (rustTrim s) p = false → strFind (rustTrim s) p = none := by
    intro p hp
    unfold strContainsSub at hp
    exact Option.not_isSome_iff_eq_none.mp (by simp [hp])
  simp only [parse_single_condition, operatorList, tryOps, tryContainsSection,
    tryStartsSection, tryEndsSection, key _ h1, key _ h2, key _ h3, key _ h4, key _ h5,
    key _ h6, key _ h7, key _ h8, key _ h9, key _ h10, key _ h11, key _ h12]

/-- C5 (counterexample): the conjunct `"foo bar"` fits none of the
grammar's condition shapes, yet `parse_filter_expression` returns `Ok` —
the malformed conjunct is silently dropped (no condition is produced), and
the resulting expression accepts every entry instead of failing the
pipeline. -/
theorem parse_malformed_accepted :
    parse_filter_expression "foo bar" = Except.ok { expression := "foo bar", conditions := [] } ∧
    evaluate_filter { expression := "foo bar", conditions := [] }
      { file_name := "a", file_path := "/a", file_type := "file",
        modified_days := 0, size := 0, extension := "" } = some true := by
  exact ⟨by decide, rfl⟩

/-- C5 (amended): the parser fails fast only on numeric-value errors: a
`modified`/`size` comparison whose value does not parse yields a parse
error, while a conjunct fitting none of the grammar's condition shapes is
silently ignored — `parse_single_condition` returns `Ok(None)` and the
conjunct contributes no condition, so the whole expression still parses. -/
theorem parse_failure_modes :
    (∃ e, parse_filter_expression "modified<abc" = Except.error e) ∧
    (∀ s : String, noConditionShape s = true → parse_single_condition s = .ok none) ∧
    parse_filter_expression "garbage" = Except.ok { expression := "garbage", conditions := [] } := by
  refine ⟨⟨"Failed to parse modified value", by decide⟩,
    parse_single_condition_unrecognized, by decide⟩

/-- C5 (amended, witness): the unrecognized-shape rule at the concrete
conjunct `"hello world"`. -/
theorem parse_failure_modes_witness :
    parse_single_condition "hello world" = .ok none ∧
    parse_filter_expression "garbage" = Except.ok { expression := "garbage", conditions := [] } := by
  exact ⟨parse_failure_modes.2.1 "hello world" (by decide), parse_failure_modes.2.2⟩

/-! ## C7: database batching -/

theorem dbRun_results_formula (B : Nat) (hB : 0 < B) :
    ∀ (es : List StorageEntity) (st : DbConsState),
      st.hasDb = true → st.batch_size = some B → st.buffer.length < B →
      (dbRun st (es.map ScanMessage.result ++ [ScanMessage.complete])).inserts =
        st.inserts ++ List.replicate ((st.buffer.length + es.length) / B) B ++
          (if (st.buffer.length + es.length) % B = 0 then []
           else [(st.buffer.length + es.length) % B]) := by
  intro es
  induction es with
  | nil =>
    intro st hdb hbs hlt
    simp only [List.map_nil, List.nil_append, List.length_nil, Nat.add_zero]
    rw [Nat.div_eq_of_lt hlt, Nat.mod_eq_of_lt hlt]
    simp only [List.replicate_zero]
    by_cases hb : st.buffer = []
    · rw [dbRun]
      simp [hb, hdb]
    · rw [dbRun]
      rw [if_pos ⟨hdb, hb⟩]
      have : st.buffer.length ≠ 0 := by
        intro h
        exact hb (List.eq_nil_of_length_eq_zero h)
      simp [this]
  | cons e rest ih =>
    intro st hdb hbs hlt
    simp only [List.map_cons, List.cons_append]
    rw [dbRun]
    rw [if_pos (by rw [hdb])]
    simp only [hbs, Option.getD_some, List.length_append, List.length_cons,
      List.length_nil, Nat.zero_add, Nat.add_zero]
    split
    · rename_i hcond
      rw [ih ⟨st.hasDb, some B, [], st.inserts ++ [st.buffer.length + 1]⟩ hdb rfl
        (by simpa using hB)]
      simp only [List.length_nil, Nat.zero_add, List.length_cons]
      have hEq : st.buffer.length + 1 = B := by omega
      have harith : st.buffer.length + (rest.length + 1) = rest.length + B := by omega
      rw [harith, Nat.add_div_right _ hB, Nat.add_mod_right, hEq, List.replicate_succ]
      simp [List.append_assoc]
    · rename_i hcond
      rw [ih ⟨st.hasDb, some B, st.buffer ++ [recordOfEntity e], st.inserts⟩ hdb rfl
        (by simp only [List.length_append, List.length_cons,
          List.length_nil, Nat.zero_add, Nat.add_zero]; omega)]
      simp only [List.length_append, List.length_cons, List.length_nil,
        Nat.zero_add, Nat.add_zero, List.length_map]
      have harith : st.buffer.length + 1 + rest.length = st.buffer.length + (rest.length + 1) := by
        omega
      rw [harith]

/-- C7: with the database initialized and batch capacity `B > 0`, a batch
insert happens exactly when the buffer reaches `B` records (the buffer is
then cleared), `Complete` flushes a non-empty residual buffer, and a run of
`n` results produces inserts of `⌊n/B⌋` full batches of `B` followed by one
residual batch of `n mod B` records when `n` is not a multiple of `B`. -/
theorem db_batch_inserts (B : Nat) (c : ConsumerConfig) (es : List StorageEntity)
    (hB : 0 < B) (hc : c.db_batch_size = B) :
    (dbRun dbInit
        (ScanMessage.config c :: (es.map ScanMessage.result ++ [ScanMessage.complete]))).inserts =
      List.replicate (es.length / B) B ++
        (if es.length % B = 0 then [] else [es.length % B]) ∧
    (∀ (st : DbConsState) (e : StorageEntity), st.hasDb = true → st.batch_size = some B →
      (st.buffer.length + 1 = B →
        dbRun st [ScanMessage.result e] =
          { st with buffer := [], inserts := st.inserts ++ [B] }) ∧
      (st.buffer.length + 1 < B →
        dbRun st [ScanMessage.result e] =
          { st with buffer := st.buffer ++ [recordOfEntity e] })) := by
  constructor
  · rw [dbRun]
    have := dbRun_results_formula B hB es
      { hasDb := true, batch_size := some c.db_batch_size, buffer := [], inserts := [] }
      rfl (by rw [hc]) (by simpa using hB)
    simp only [List.length_nil, Nat.zero_add, List.nil_append] at this
    exact this
  · intro st e hdb hbs
    constructor
    · intro hfull
      rw [dbRun]
      rw [if_pos (by rw [hdb])]
      simp only [hbs, Option.getD_some, List.length_append, List.length_cons, List.length_nil]
      rw [if_pos (by omega)]
      rw [dbRun]
      have : st.buffer.length + (1 + 0) = B := by omega
      simp [this]
    · intro hlt
      rw [dbRun]
      rw [if_pos (by rw [hdb])]
      simp only [hbs, Option.getD_some, List.length_append, List.length_cons, List.length_nil]
      rw [if_neg (by omega)]
      rw [dbRun]

/-- C7 (witness): a scan delivering 200 010 records with batch capacity
200 000 produces exactly two batch inserts, of 200 000 and 10 records. -/
theorem db_batch_inserts_witness :
    (dbRun dbInit
        (ScanMessage.config
            { scan_config :=
                { params :=
                    { id := none, depth := 1, path := ".", match_expressions := [],
                      exclude_expressions := [], scan_type := .full },
                  expressions := [], exclude_expressions := [] },
              job_id := "job", db_batch_size := 200000 } ::
          ((List.replicate 200010
              { file_name := "a", file_path := "/a", relative_path := "a",
                extension := none, is_dir := false, is_symlink := false, size := 0,
                atime := none, ctime := none, mtime := none, mode := none,
                permissions := none, hard_links := none }).map ScanMessage.result ++
            [ScanMessage.complete]))).inserts = [200000, 10] := by
  rw [(db_batch_inserts 200000 _ _ (by norm_num) rfl).1]
  norm_num

/-! ## C1: match/exclude composition -/

theorem has_matching_spec (f : EntryFields) :
    ∀ l : List FilterExpression, (∀ e ∈ l, (evaluate_filter e f).isSome) →
      (has_matching_expression f l = some true ∨
       has_matching_expression f l = some false) ∧
      (has_matching_expression f l = some true ↔
        ∃ e ∈ l, evaluate_filter e f = some true) := by
  intro l
  induction l with
  | nil =>
    intro _
    refine ⟨Or.inr rfl, ?_⟩
    simp [has_matching_expression]
  | cons e es ih =>
    intro hall
    have he : (evaluate_filter e f).isSome := hall e (List.mem_cons_self e es)
    have hes : ∀ x ∈ es, (evaluate_filter x f).isSome :=
      fun x hx => hall x (List.mem_cons_of_mem e hx)
    obtain ⟨ihd, ihiff⟩ := ih hes
    cases hev : evaluate_filter e f with
    | none => rw [hev] at he; exact absurd he (by simp)
    | some b =>
      cases b with
      | true =>
        refine ⟨Or.inl ?_, ?_⟩
        · rw [has_matching_expression, hev]
        · rw [has_matching_expression, hev]
          simp only [true_iff]
          exact ⟨e, List.mem_cons_self e es, hev⟩
      | false =>
        rw [has_matching_expression, hev]
        refine ⟨ihd, ?_⟩
        rw [ihiff]
        constructor
        · rintro ⟨x, hx, hxt⟩
          exact ⟨x, List.mem_cons_of_mem e hx, hxt⟩
        · rintro ⟨x, hx, hxt⟩
          rcases List.mem_cons.mp hx with rfl | hx'
          · rw [hxt] at hev; cases hev
          · exact ⟨x, hx', hxt⟩

/-- C1: for every entry whose match and exclude expressions all evaluate
without panicking, the pipeline keeps (forwards) the entry — that is,
`should_skip_file` returns `false` — iff (the match list is empty or some
match expression evaluates to true) and no exclude expression evaluates to
true. -/
theorem keep_iff_match_and_not_exclude
    (M X : List FilterExpression) (f : EntryFields)
    (hM : ∀ e ∈ M, (evaluate_filter e f).isSome)
    (hX : ∀ e ∈ X, (evaluate_filter e f).isSome) :
    should_skip_file M X f = some false ↔
      ((M = [] ∨ ∃ m ∈ M, evaluate_filter m f = some true) ∧
       ¬ ∃ x ∈ X, evaluate_filter x f = some true) := by
  obtain ⟨hMd, hMiff⟩ := has_matching_spec f M hM
  obtain ⟨hXd, hXiff⟩ := has_matching_spec f X hX
  have hmatch : skipByMatchCheck M f = some false ↔
      (M = [] ∨ ∃ m ∈ M, evaluate_filter m f = some true) := by
    unfold skipByMatchCheck
    by_cases hMe : M.isEmpty
    · rw [if_pos hMe]
      simp [List.isEmpty_iff.mp hMe]
    · rw [if_neg hMe]
      rcases hMd with h | h <;> rw [h]
      · simp only [true_iff]
        exact Or.inr (hMiff.mp h)
      · constructor
        · intro hc; cases hc
        · rintro (rfl | hex)
          · exact absurd (rfl : List.isEmpty ([] : List FilterExpression) = true) hMe
          · rw [← hMiff] at hex
            rw [hex] at h; cases h
  unfold should_skip_file
  by_cases hXe : X.isEmpty
  · rw [if_pos hXe]
    rw [hmatch]
    have : ¬ ∃ x ∈ X, evaluate_filter x f = some true := by
      rintro ⟨x, hx, -⟩
      rw [List.isEmpty_iff.mp hXe] at hx
      cases hx
    exact ⟨fun hm => ⟨hm, this⟩, fun hc => hc.1⟩
  · rw [if_neg hXe]
    rcases hXd with h | h <;> rw [h]
    · have hex : ∃ x ∈ X, evaluate_filter x f = some true := hXiff.mp h
      constructor
      · intro hc; cases hc
      · rintro ⟨-, hnx⟩
        exact absurd hex hnx
    · rw [hmatch]
      have hnex : ¬ ∃ x ∈ X, evaluate_filter x f = some true := by
        intro hex
        rw [← hXiff] at hex
        rw [hex] at h; cases h
      exact ⟨fun hm => ⟨hm, hnex⟩, fun hc => hc.1⟩

/-- C1 (witness): one match expression (`name == "a.txt"`), one exclude
expression (`size > 100`) on a concrete entry that the match accepts and
the exclude does not. -/
theorem keep_iff_match_and_not_exclude_witness :
    should_skip_file
      [{ expression := "name==\"a.txt\"", conditions := [.name "==" "a.txt"] }]
      [{ expression := "size>100", conditions := [.size ">" 100] }]
      { file_name := "a.txt", file_path := "/a.txt", file_type := "file",
        modified_days := 0, size := 10, extension := "txt" } = some false := by
  apply (keep_iff_match_and_not_exclude _ _ _ (by decide) (by decide)).mpr
  refine ⟨Or.inr ⟨_, List.mem_singleton_self _, by decide⟩, ?_⟩
  rintro ⟨x, hx, hxt⟩
  rw [List.mem_singleton.mp hx] at hxt
  exact absurd hxt (by decide)

/-! ## C2: message protocol -/

theorem walkdirSent_shape (cfg : ScanConfig) (now : Int) :
    ∀ entries : List StorageEntryPipe,
      (∃ rs : List StorageEntity, walkdirSent cfg now entries =
        rs.map ScanMessage.result ++ [ScanMessage.complete]) ∨
      (∃ rs : List StorageEntity, walkdirSent cfg now entries =
        rs.map ScanMessage.result) := by
  intro entries
  induction entries with
  | nil => exact Or.inl ⟨[], rfl⟩
  | cons e rest ih =>
    rw [walkdirSent]
    cases hskip : should_skip_file cfg.expressions cfg.exclude_expressions
        (entryFields now e) with
    | none => exact Or.inr ⟨[], rfl⟩
    | some b =>
      cases b with
      | true => exact ih
      | false =>
        rcases ih with ⟨rs, hrs⟩ | ⟨rs, hrs⟩
        · exact Or.inl ⟨scanResultOf e :: rs, by rw [hrs]; rfl⟩
        · exact Or.inr ⟨scanResultOf e :: rs, by rw [hrs]; rfl⟩

theorem scanForward_of_results_complete (rs : List StorageEntity) :
    scanForward (rs.map ScanMessage.result ++ [ScanMessage.complete]) =
      rs.map ScanMessage.result ++ [ScanMessage.complete] := by
  induction rs with
  | nil => rfl
  | cons r rest ih => simp [scanForward, ih]

theorem scanForward_of_results_only (rs : List StorageEntity) :
    scanForward (rs.map ScanMessage.result) =
      rs.map ScanMessage.result ++ [ScanMessage.complete] := by
  induction rs with
  | nil => rfl
  | cons r rest ih => simp [scanForward, ih]

theorem countP_isConfig_results (rs : List StorageEntity) :
    (rs.map ScanMessage.result).countP isConfigMsg = 0 := by
  induction rs with
  | nil => rfl
  | cons r rest ih => simp [List.countP_cons, isConfigMsg, ih]

theorem countP_isComplete_results (rs : List StorageEntity) :
    (rs.map ScanMessage.result).countP isCompleteMsg = 0 := by
  induction rs with
  | nil => rfl
  | cons r rest ih => simp [List.countP_cons, isCompleteMsg, ih]

/-- C2: in every run the broadcast trace a sink receives is exactly one
`Config` first, then only `Result` messages, then exactly one `Complete`
last — so `Config` precedes every `Result`, `Complete` follows the last
`Result`, and nothing follows `Complete` (this holds even when the walker
task dies mid-run: the closed channel still triggers the final
`Complete`). -/
theorem scan_message_protocol (cc : ConsumerConfig) (now : Int)
    (entries : List StorageEntryPipe) :
    ∃ rs : List StorageEntity,
      scanBroadcast cc now entries =
        ScanMessage.config cc :: (rs.map ScanMessage.result ++ [ScanMessage.complete]) ∧
      (scanBroadcast cc now entries).countP isConfigMsg = 1 ∧
      (scanBroadcast cc now entries).countP isCompleteMsg = 1 ∧
      (scanBroadcast cc now entries).getLast? = some ScanMessage.complete := by
  have hshape : ∃ rs : List StorageEntity,
      scanForward (walkdirSent cc.scan_config now entries) =
        rs.map ScanMessage.result ++ [ScanMessage.complete] := by
    rcases walkdirSent_shape cc.scan_config now entries with ⟨rs, hrs⟩ | ⟨rs, hrs⟩
    · exact ⟨rs, by rw [hrs, scanForward_of_results_complete]⟩
    · exact ⟨rs, by rw [hrs, scanForward_of_results_only]⟩
  obtain ⟨rs, hrs⟩ := hshape
  refine ⟨rs, ?_, ?_, ?_, ?_⟩
  · rw [scanBroadcast, hrs]
  · rw [scanBroadcast, hrs]
    simp [List.countP_cons, List.countP_append, countP_isConfig_results, isConfigMsg]
  · rw [scanBroadcast, hrs]
    simp [List.countP_cons, List.countP_append, countP_isComplete_results, isCompleteMsg]
  · rw [scanBroadcast, hrs, ← List.cons_append, List.getLast?_concat]

/-! ## C9: like-pattern matching -/

theorem isPre_single_cons (c : Char) (l : List Char) : isPre [c] (c :: l) = true := by
  simp [isPre]

theorem isPre_single_of_ne {a c : Char} (h : ¬ a = c) (l : List Char) :
    isPre [c] (a :: l) = false := by
  simp [isPre]
  intro hc
  exact absurd hc.symm h

theorem isPre_single_not_mem {c : Char} {l : List Char} (h : c ∉ l) :
    isPre [c] l = false := by
  cases l with
  | nil => rfl
  | cons a as =>
    apply isPre_single_of_ne
    intro hac
    exact h (hac ▸ List.mem_cons_self a as)

theorem isPre_single_append_left {l : List Char} (c : Char) (m : List Char)
    (h : l ≠ []) : isPre [c] (l ++ m) = isPre [c] l := by
  cases l with
  | nil => exact absurd rfl h
  | cons a as => simp [isPre]

theorem isSuf_single_append (c : Char) (l : List Char) : isSuf [c] (l ++ [c]) = true := by
  unfold isSuf
  rw [List.reverse_append]
  simp [isPre]

theorem isSuf_single_not_mem {c : Char} {l : List Char} (h : c ∉ l) :
    isSuf [c] l = false := by
  unfold isSuf
  apply isPre_single_not_mem
  simpa using h

theorem isSuf_single_append_right (c : Char) (l : List Char) {m : List Char}
    (h : m ≠ []) : isSuf [c] (l ++ m) = isSuf [c] m := by
  unfold isSuf
  rw [List.reverse_append]
  exact isPre_single_append_left c l.reverse (by simpa using h)

theorem splitCharAux_no_sep {sep : Char} {l : List Char} (h : sep ∉ l) :
    ∀ acc, splitCharAux sep acc l = [acc.reverse ++ l] := by
  induction l with
  | nil => intro acc; simp [splitCharAux]
  | cons a as ih =>
    intro acc
    have hne : ¬ a = sep := fun hc => h (hc ▸ List.mem_cons_self a as)
    rw [splitCharAux, if_neg hne]
    rw [ih (fun hc => h (List.mem_cons_of_mem a hc)) (a :: acc)]
    simp

theorem splitCharAux_once {sep : Char} {p : List Char} (hp : sep ∉ p) :
    ∀ acc rest, splitCharAux sep acc (p ++ sep :: rest) =
      (acc.reverse ++ p) :: splitCharAux sep [] rest := by
  induction p with
  | nil =>
    intro acc rest
    simp only [List.nil_append, splitCharAux, if_pos rfl]
    simp
  | cons a as ih =>
    intro acc rest
    have hne : ¬ a = sep := fun hc => hp (hc ▸ List.mem_cons_self a as)
    rw [List.cons_append, splitCharAux, if_neg hne]
    rw [ih (fun hc => hp (List.mem_cons_of_mem a hc)) (a :: acc) rest]
    simp

theorem likeMatchL_both_pct (subject p : List Char) :
    likeMatchL subject ('%' :: (p ++ ['%'])) = some (containsSubL subject p) := by
  unfold likeMatchL
  rw [isPre_single_cons]
  rw [show isSuf ['%'] ('%' :: (p ++ ['%'])) = true from by
    rw [← List.cons_append]; exact isSuf_single_append _ _]
  simp only [Bool.and_self, if_true]
  rw [if_neg (by simp)]
  rw [show ('%' :: (p ++ ['%'])).drop 1 = p ++ ['%'] from rfl]
  rw [show ('%' :: (p ++ ['%'])).length - 2 = p.length from by simp]
  rw [List.take_left]

theorem likeMatchL_pre_pct (subject p : List Char) (hp : p ≠ [])
    (hlast : isSuf ['%'] p = false) :
    likeMatchL subject ('%' :: p) = some (isSuf p subject) := by
  unfold likeMatchL
  rw [isPre_single_cons]
  rw [show isSuf ['%'] ('%' :: p) = false from by
    rw [show ('%' :: p) = ['%'] ++ p from rfl, isSuf_single_append_right _ _ hp]
    exact hlast]
  rw [show ('%' :: p).drop 1 = p from rfl]
  simp

theorem likeMatchL_suf_pct (subject p : List Char) (hp : p ≠ [])
    (hfirst : isPre ['%'] p = false) :
    likeMatchL subject (p ++ ['%']) = some (isPre p subject) := by
  unfold likeMatchL
  rw [isPre_single_append_left _ _ hp, hfirst]
  rw [isSuf_single_append]
  rw [show (p ++ ['%']).length - 1 = p.length from by simp]
  rw [List.take_left]
  simp

theorem likeMatchL_mid_pct (subject p s : List Char) (hp : p ≠ []) (hs : s ≠ [])
    (hpn : '%' ∉ p) (hsn : '%' ∉ s) :
    likeMatchL subject (p ++ '%' :: s) = some (isPre p subject && isSuf s subject) := by
  unfold likeMatchL
  rw [isPre_single_append_left _ _ hp, isPre_single_not_mem hpn]
  rw [show isSuf ['%'] (p ++ '%' :: s) = false from by
    rw [isSuf_single_append_right _ _ (List.cons_ne_nil '%' s)]
    rw [show ('%' :: s) = ['%'] ++ s from rfl, isSuf_single_append_right _ _ hs]
    exact isSuf_single_not_mem hsn]
  simp only [Bool.false_and, if_false]
  rw [show (p ++ '%' :: s).contains '%' = true from by
    simp]
  rw [if_pos rfl]
  rw [show splitCharAux '%' [] (p ++ '%' :: s) = [p, s] from by
    rw [splitCharAux_once hpn [] s, splitCharAux_no_sep hsn []]
    simp]
  simp

theorem likeMatchL_no_pct (subject p : List Char) (hn : '%' ∉ p) :
    likeMatchL subject p = some (subject == p) := by
  unfold likeMatchL
  rw [isPre_single_not_mem hn, isSuf_single_not_mem hn]
  rw [show p.contains '%' = false from by simpa using hn]
  simp

theorem data_ne_nil_of_ne_empty {p : String} (h : p ≠ "") : p.data ≠ [] := by
  intro hd
  exact h (String.ext (by simp [hd]))

theorem beq_data_eq_beq (a b : String) : (a.data == b.data) = (a == b) := by
  by_cases h : a = b
  · simp [h]
  · have hd : a.data ≠ b.data := fun hd => h (String.ext hd)
    rw [beq_eq_false_iff_ne.mpr hd, beq_eq_false_iff_ne.mpr h]

/-- C9: the `like` evaluation of `evaluate_filter`, case-sensitively:
a pattern `%p%` matches iff the name contains `p`; `%p` (p nonempty, not
ending in `%`) matches iff the name ends with `p`; `p%` (p nonempty, not
starting with `%`) matches iff the name starts with `p`; `p%s` with exactly
one interior `%` matches iff the name starts with `p` and ends with `s`;
a `%`-free pattern matches iff name and pattern are equal; and for the name
`my_document.txt`: `%.txt` matches, `doc%.txt` does not, `%document%`
matches, `my%txt` matches. -/
theorem like_pattern_semantics :
    (∀ nm p : String, strLike nm ("%" ++ p ++ "%") = some (strContainsSub nm p)) ∧
    (∀ nm p : String, p ≠ "" → strEndsWith p "%" = false →
      strLike nm ("%" ++ p) = some (strEndsWith nm p)) ∧
    (∀ nm p : String, p ≠ "" → strStartsWith p "%" = false →
      strLike nm (p ++ "%") = some (strStartsWith nm p)) ∧
    (∀ nm p s : String, p ≠ "" → s ≠ "" → '%' ∉ p.data → '%' ∉ s.data →
      strLike nm (p ++ "%" ++ s) = some (strStartsWith nm p && strEndsWith nm s)) ∧
    (∀ nm p : String, '%' ∉ p.data → strLike nm p = some (nm == p)) ∧
    strLike "my_document.txt" "%.txt" = some true ∧
    strLike "my_document.txt" "doc%.txt" = some false ∧
    strLike "my_document.txt" "%document%" = some true ∧
    strLike "my_document.txt" "my%txt" = some true := by
  refine ⟨?_, ?_, ?_, ?_, ?_, by decide, by decide, by decide, by decide⟩
  · intro nm p
    exact likeMatchL_both_pct nm.data p.data
  · intro nm p hne hend
    exact likeMatchL_pre_pct nm.data p.data (data_ne_nil_of_ne_empty hne) hend
  · intro nm p hne hfirst
    exact likeMatchL_suf_pct nm.data p.data (data_ne_nil_of_ne_empty hne) hfirst
  · intro nm p s hpe hse hpn hsn
    have hd : (p ++ "%" ++ s).data = p.data ++ '%' :: s.data := by
      show (p.data ++ ['%']) ++ s.data = p.data ++ '%' :: s.data
      rw [List.append_assoc]
      rfl
    show likeMatchL nm.data (p ++ "%" ++ s).data = _
    rw [hd]
    exact likeMatchL_mid_pct nm.data p.data s.data
      (data_ne_nil_of_ne_empty hpe) (data_ne_nil_of_ne_empty hse) hpn hsn
  · intro nm p hn
    show likeMatchL nm.data p.data = some (nm == p)
    rw [likeMatchL_no_pct nm.data p.data hn, beq_data_eq_beq]

/-- C9 (witness): the general shape rules instantiated at concrete names
and patterns. -/
theorem like_pattern_semantics_witness :
    strLike "a.txt" ("%" ++ ".txt") = some true ∧
    strLike "a.txt" ("my" ++ "%") = some false ∧
    strLike "my_doc.txt" ("my" ++ "%" ++ "txt") = some true ∧
    strLike "abc" "abc" = some true ∧
    strLike "b.txt" ("%" ++ ".txt" ++ "%") = some true := by
  obtain ⟨h1, h2, h3, h4, h5, -⟩ := like_pattern_semantics
  refine ⟨?_, ?_, ?_, ?_, ?_⟩
  · rw [h2 "a.txt" ".txt" (by decide) (by decide)]; decide
  · rw [h3 "a.txt" "my" (by decide) (by decide)]; decide
  · rw [h4 "my_doc.txt" "my" "txt" (by decide) (by decide) (by decide) (by decide)]
    decide
  · rw [h5 "abc" "abc" (by decide)]; decide
  · rw [h1 "b.txt" ".txt"]; decide
